import Mathlib

/-!
Verification of the adaptive EWMA smoothing filter from
`filter-ewma2/ftnoir_filter_ewma2.cpp` (`FTNoIR_Filter::filter`).

The filter maps a 6-axis pose sample to a smoothed pose sample while
maintaining per-axis running estimates of the delta and of the noise
variance.  Doubles are modelled as real numbers; the two monotonic
timers are external collaborators, so their elapsed-seconds readings
enter the model as explicit inputs of each invocation.
-/

namespace Ewma2

open scoped Classical

/-- Configuration snapshot read during one invocation.  The fields
`smoothing_scale_curve`, `min_smoothing` and `max_smoothing_raw` are the
slider values read on lines 69-72 of the source (`max_smoothing_raw` is
the value of `s.kMaxSmoothing` before the `std::max` clamp of line 72).
The fields `delta_RC` and `noise_RC` are Modelled from the spec: the
header declaring the `delta_RC` / `noise_RC` members of `FTNoIR_Filter`
is not part of the sources; the spec describes them as the fixed
`delta_time_constant` / `noise_time_constant` smoothing constants in
seconds, with non-positive values a degenerate configuration. -/
structure Settings where
  delta_RC : ℝ
  noise_RC : ℝ
  smoothing_scale_curve : ℝ
  min_smoothing : ℝ
  max_smoothing_raw : ℝ

/-- Line 72: `max_smoothing = std::max(min_smoothing, s.kMaxSmoothing.cur())`. -/
noncomputable def max_smoothing (cfg : Settings) : ℝ :=
  max cfg.min_smoothing cfg.max_smoothing_raw

/-- The mutable state of one `FTNoIR_Filter` instance: the `first_run`
flag and the three per-axis arrays. -/
structure EwmaFilter where
  first_run : Bool
  last_output : Fin 6 → ℝ
  last_delta : Fin 6 → ℝ
  last_noise : Fin 6 → ℝ

/-- Lines 32-44: one-time initialisation performed when `first_run` is
set: `last_output[i] = input[i]`, `last_delta[i] = 0`,
`last_noise[i] = 0` for every axis, and the flag is cleared. -/
def init_state (input : Fin 6 → ℝ) : EwmaFilter :=
  ⟨false, input, fun _ => 0, fun _ => 0⟩

/-- Lines 46-53: the sample-change detector.  `new_sample` becomes true
exactly when some axis satisfies `fabs(last_output[i] - input[i]) > 1e-4`. -/
def is_new_sample (last_output input : Fin 6 → ℝ) : Prop :=
  ∃ i : Fin 6, |last_output i - input i| > 1e-4

/-- Lines 65-66 and 95: the generic EWMA blend coefficient
`alpha = dt / (dt + RC)`. -/
noncomputable def ewma_alpha (dt RC : ℝ) : ℝ :=
  dt / (dt + RC)

/-- Line 87: normalise the instantaneous squared delta against nine
times the running variance, guarding the near-zero divisor:
`norm_noise = last_noise < 1e-10 ? 0 : min(noise/(9*last_noise), 1)`. -/
noncomputable def norm_noise (noise last_noise : ℝ) : ℝ :=
  if last_noise < 1e-10 then 0 else min (noise / (9 * last_noise)) 1

/-- Line 92: the smoothing fraction `1 - pow(norm_noise, curve)`
(real-valued power). -/
noncomputable def smoothing (nn curve : ℝ) : ℝ :=
  1 - nn ^ curve

/-- Line 89: the per-axis weight table `static const double c[] =
{ 5, 5, 3, 1, 1, 1 }`, fixed at compile time. -/
noncomputable def c : Fin 6 → ℝ :=
  ![5, 5, 3, 1, 1, 1]

/-- Line 93: the dynamic per-axis time constant
`RC = c[i] * (min_smoothing + smoothing*(max_smoothing - min_smoothing))`. -/
noncomputable def dyn_RC (cfg : Settings) (sm : ℝ) (i : Fin 6) : ℝ :=
  c i * (cfg.min_smoothing + sm * (max_smoothing cfg - cfg.min_smoothing))

/-- Result of the loop body (lines 75-98) for one axis: the updated
`last_delta[i]`, the updated `last_noise[i]`, and the axis output
(which is also the updated `last_output[i]`). -/
structure AxisOut where
  last_delta : ℝ
  last_noise : ℝ
  output : ℝ

/-- Lines 75-98: the per-axis body of the main loop. -/
noncomputable def filter_axis (cfg : Settings) (delta_alpha noise_alpha dt_f : ℝ)
    (i : Fin 6) (input last_output last_delta last_noise : ℝ) : AxisOut :=
  let delta := input - last_output
  let last_delta2 := delta_alpha * delta + (1 - delta_alpha) * last_delta
  let noise := last_delta2 * last_delta2
  let last_noise2 := noise_alpha * noise + (1 - noise_alpha) * last_noise
  let nn := norm_noise noise last_noise2
  let sm := smoothing nn cfg.smoothing_scale_curve
  let RC := dyn_RC cfg sm i
  let alpha := ewma_alpha dt_f RC
  ⟨last_delta2, last_noise2, alpha * input + (1 - alpha) * last_output⟩

/-- One invocation of `FTNoIR_Filter::filter` (lines 29-99).
`sample_elapsed` and `filter_elapsed` are the elapsed-seconds readings
of the sample timer and of the filter timer for this invocation; they
are supplied by the external monotonic time source.  Returns the new
filter state together with the output vector. -/
noncomputable def filter_invoke (cfg : Settings) (sample_elapsed filter_elapsed : ℝ)
    (f : EwmaFilter) (input : Fin 6 → ℝ) : EwmaFilter × (Fin 6 → ℝ) :=
  let f0 := if f.first_run then init_state input else f
  let dt_s := if is_new_sample f0.last_output input then sample_elapsed else 0
  let dt_f := filter_elapsed
  let delta_alpha := ewma_alpha dt_s cfg.delta_RC
  let noise_alpha := ewma_alpha dt_s cfg.noise_RC
  let res : Fin 6 → AxisOut := fun i =>
    filter_axis cfg delta_alpha noise_alpha dt_f i
      (input i) (f0.last_output i) (f0.last_delta i) (f0.last_noise i)
  (⟨false, fun i => (res i).output, fun i => (res i).last_delta,
    fun i => (res i).last_noise⟩, fun i => (res i).output)

/-- Clamping a configuration replaces the raw maximum by the effective
(clamped) maximum, leaving every other field alone. -/
noncomputable def clamp_config (cfg : Settings) : Settings :=
  { cfg with max_smoothing_raw := max_smoothing cfg }

lemma not_new_sample_of_eq (lo input : Fin 6 → ℝ) (h : ∀ i, input i = lo i) :
    ¬ is_new_sample lo input := by
  rintro ⟨i, hi⟩
  rw [h i, sub_self, abs_zero] at hi
  exact absurd hi (by norm_num)

lemma norm_noise_mem (d ln : ℝ) :
    0 ≤ norm_noise (d * d) ln ∧ norm_noise (d * d) ln ≤ 1 := by
  unfold norm_noise
  split
  · norm_num
  · next h =>
      constructor
      · exact le_min (div_nonneg (mul_self_nonneg d) (by nlinarith [not_lt.mp h]))
          zero_le_one
      · exact min_le_right _ _

lemma smoothing_mem (nn curve : ℝ) (h0 : 0 ≤ nn) (h1 : nn ≤ 1) (hc : 0 ≤ curve) :
    0 ≤ smoothing nn curve ∧ smoothing nn curve ≤ 1 := by
  unfold smoothing
  constructor
  · have := Real.rpow_le_one h0 h1 hc
    linarith
  · have := Real.rpow_nonneg h0 curve
    linarith

lemma ewma_alpha_mem (dt RC : ℝ) (hdt : 0 ≤ dt) (hRC : 0 < RC) :
    0 ≤ ewma_alpha dt RC ∧ ewma_alpha dt RC ≤ 1 := by
  unfold ewma_alpha
  have hpos : 0 < dt + RC := by linarith
  exact ⟨div_nonneg hdt hpos.le, (div_le_one hpos).mpr (by linarith)⟩

lemma blend_nonneg (a x y : ℝ) (h0 : 0 ≤ a) (h1 : a ≤ 1) (hx : 0 ≤ x) (hy : 0 ≤ y) :
    0 ≤ a * x + (1 - a) * y :=
  add_nonneg (mul_nonneg h0 hx) (mul_nonneg (by linarith) hy)

lemma c_nonneg (i : Fin 6) : 0 ≤ c i := by
  fin_cases i <;> norm_num [c]

/-- C4: the sample-change detector reports a change iff some axis
differs from the stored `last_output` by more than the fixed epsilon
`1e-4`, uniform over all six axes; the detector is a pure predicate of
the input vector and `last_output` and mutates no state. -/
theorem C4_change_detector (lo input : Fin 6 → ℝ) :
    is_new_sample lo input ↔ ∃ i : Fin 6, |input i - lo i| > 1e-4 := by
  unfold is_new_sample
  constructor <;> rintro ⟨i, hi⟩ <;> exact ⟨i, by rwa [abs_sub_comm] at hi⟩

/-- C6: for `norm_noise` in `[0,1]` and a positive curve exponent, the
smoothing fraction `1 - norm_noise ^ curve` lies in `[0,1]`; it equals
`1` at `norm_noise = 0` and `0` at `norm_noise = 1`. -/
theorem C6_smoothing_fraction (nn curve : ℝ) (h0 : 0 ≤ nn) (h1 : nn ≤ 1)
    (hc : 0 < curve) :
    (0 ≤ smoothing nn curve ∧ smoothing nn curve ≤ 1) ∧
    smoothing 0 curve = 1 ∧ smoothing 1 curve = 0 := by
  refine ⟨smoothing_mem nn curve h0 h1 hc.le, ?_, ?_⟩
  · unfold smoothing
    rw [Real.zero_rpow (ne_of_gt hc)]
    norm_num
  · unfold smoothing
    rw [Real.one_rpow]
    norm_num

/-- C9: with a non-negative running noise estimate, the normalisation
step never divides by zero: below the `1e-10` guard it returns `0`,
above it the divisor `9 * last_noise` is strictly positive and the
result is `min (noise / (9 * last_noise)) 1`; in all cases the result
lies in `[0,1]` (the instantaneous noise is the square `d * d`). -/
theorem C9_norm_noise_guard (d ln : ℝ) (h : 0 ≤ ln) :
    (ln < 1e-10 → norm_noise (d * d) ln = 0) ∧
    (¬ ln < 1e-10 → 0 < 9 * ln ∧ norm_noise (d * d) ln = min (d * d / (9 * ln)) 1) ∧
    0 ≤ norm_noise (d * d) ln ∧ norm_noise (d * d) ln ≤ 1 := by
  refine ⟨fun hlt => ?_, fun hge => ⟨by nlinarith [not_lt.mp hge], ?_⟩, norm_noise_mem d ln⟩
  · unfold norm_noise
    rw [if_pos hlt]
  · unfold norm_noise
    rw [if_neg hge]

/-- C10: the per-axis weight multipliers applied to the dynamic time
constant are the fixed constants 5, 5, 3, 1, 1, 1 for axes 0-5, for
every configuration read (they are not part of the settings store). -/
theorem C10_axis_weights (cfg : Settings) (sm : ℝ) :
    dyn_RC cfg sm 0 = 5 * (cfg.min_smoothing + sm * (max_smoothing cfg - cfg.min_smoothing)) ∧
    dyn_RC cfg sm 1 = 5 * (cfg.min_smoothing + sm * (max_smoothing cfg - cfg.min_smoothing)) ∧
    dyn_RC cfg sm 2 = 3 * (cfg.min_smoothing + sm * (max_smoothing cfg - cfg.min_smoothing)) ∧
    dyn_RC cfg sm 3 = 1 * (cfg.min_smoothing + sm * (max_smoothing cfg - cfg.min_smoothing)) ∧
    dyn_RC cfg sm 4 = 1 * (cfg.min_smoothing + sm * (max_smoothing cfg - cfg.min_smoothing)) ∧
    dyn_RC cfg sm 5 = 1 * (cfg.min_smoothing + sm * (max_smoothing cfg - cfg.min_smoothing)) := by
  refine ⟨rfl, rfl, rfl, rfl, rfl, rfl⟩

/-- C1: for every configuration with a positive curve exponent, every
axis and every state reachable by the engine (the instantaneous noise
is always a square, the running estimate is arbitrary), the dynamic
time constant satisfies
`c[i] * min_smoothing ≤ RC ≤ c[i] * max_smoothing`, the maximum taken
after the clamp `max_smoothing = max min_smoothing max_smoothing_raw`. -/
theorem C1_bounded_time_constant (cfg : Settings) (hc : 0 < cfg.smoothing_scale_curve)
    (d ln : ℝ) (i : Fin 6) :
    c i * cfg.min_smoothing ≤
      dyn_RC cfg (smoothing (norm_noise (d * d) ln) cfg.smoothing_scale_curve) i ∧
    dyn_RC cfg (smoothing (norm_noise (d * d) ln) cfg.smoothing_scale_curve) i ≤
      c i * max_smoothing cfg := by
  obtain ⟨hn0, hn1⟩ := norm_noise_mem d ln
  obtain ⟨hs0, hs1⟩ := smoothing_mem _ _ hn0 hn1 hc.le
  have hmm : cfg.min_smoothing ≤ max_smoothing cfg := le_max_left _ _
  have hci := c_nonneg i
  have hb1 : 0 ≤ smoothing (norm_noise (d * d) ln) cfg.smoothing_scale_curve *
      (max_smoothing cfg - cfg.min_smoothing) :=
    mul_nonneg hs0 (by linarith)
  have hb2 : smoothing (norm_noise (d * d) ln) cfg.smoothing_scale_curve *
      (max_smoothing cfg - cfg.min_smoothing) ≤ max_smoothing cfg - cfg.min_smoothing :=
    mul_le_of_le_one_left (by linarith) hs1
  unfold dyn_RC
  constructor
  · exact mul_le_mul_of_nonneg_left (by linarith) hci
  · exact mul_le_mul_of_nonneg_left (by linarith) hci

lemma filter_axis_noise_nonneg (cfg : Settings) (da na fe : ℝ) (i : Fin 6)
    (inp lo ld ln : ℝ) (hna0 : 0 ≤ na) (hna1 : na ≤ 1) (hln : 0 ≤ ln) :
    0 ≤ (filter_axis cfg da na fe i inp lo ld ln).last_noise := by
  simp only [filter_axis]
  exact blend_nonneg _ _ _ hna0 hna1 (mul_self_nonneg _) hln

/-- C2: on the first invocation of a fresh instance the output equals
the input exactly on all six axes, `last_output` becomes the raw input,
and `last_delta` and `last_noise` are `0` afterwards — for any elapsed
times and any configuration. -/
theorem C2_first_call_identity (cfg : Settings) (se fe : ℝ) (f : EwmaFilter)
    (v : Fin 6 → ℝ) (h : f.first_run = true) :
    (∀ i, (filter_invoke cfg se fe f v).2 i = v i) ∧
    (∀ i, (filter_invoke cfg se fe f v).1.last_output i = v i) ∧
    (∀ i, (filter_invoke cfg se fe f v).1.last_delta i = 0) ∧
    (∀ i, (filter_invoke cfg se fe f v).1.last_noise i = 0) := by
  have hns : ¬ is_new_sample (init_state v).last_output v :=
    not_new_sample_of_eq _ _ fun i => rfl
  refine ⟨?_, ?_, ?_, ?_⟩ <;>
    · intro i
      simp [filter_invoke, h, hns, init_state, filter_axis, ewma_alpha]
      try ring

/-- C3: when the detector reports no change, the sample dt is `0`, both
blend coefficients `delta_alpha` and `noise_alpha` are exactly `0`
(positive time constants), and the invocation leaves `last_delta[i]`
and `last_noise[i]` unchanged on every axis. -/
theorem C3_stats_freeze (cfg : Settings) (se fe : ℝ) (f : EwmaFilter)
    (input : Fin 6 → ℝ) (hfr : f.first_run = false)
    (hns : ¬ is_new_sample f.last_output input)
    (hd : 0 < cfg.delta_RC) (hn : 0 < cfg.noise_RC) :
    (if is_new_sample f.last_output input then se else 0) = 0 ∧
    ewma_alpha 0 cfg.delta_RC = 0 ∧ ewma_alpha 0 cfg.noise_RC = 0 ∧
    (∀ i, (filter_invoke cfg se fe f input).1.last_delta i = f.last_delta i) ∧
    (∀ i, (filter_invoke cfg se fe f input).1.last_noise i = f.last_noise i) := by
  refine ⟨if_neg hns, by simp [ewma_alpha], by simp [ewma_alpha], ?_, ?_⟩ <;>
    · intro i
      simp [filter_invoke, hfr, hns, filter_axis, ewma_alpha]
      try ring

/-- C5: an invocation (after initialisation) whose input equals
`last_output` on all six axes returns that vector unchanged and leaves
`last_output`, `last_delta` and `last_noise` all unchanged: the
converged state is a fixed point under repeated identical input. -/
theorem C5_fixed_point (cfg : Settings) (se fe : ℝ) (f : EwmaFilter)
    (input : Fin 6 → ℝ) (hfr : f.first_run = false)
    (heq : ∀ i, input i = f.last_output i)
    (hd : 0 < cfg.delta_RC) (hn : 0 < cfg.noise_RC) :
    (∀ i, (filter_invoke cfg se fe f input).2 i = input i) ∧
    (∀ i, (filter_invoke cfg se fe f input).1.last_output i = f.last_output i) ∧
    (∀ i, (filter_invoke cfg se fe f input).1.last_delta i = f.last_delta i) ∧
    (∀ i, (filter_invoke cfg se fe f input).1.last_noise i = f.last_noise i) := by
  have hns := not_new_sample_of_eq f.last_output input heq
  refine ⟨?_, ?_, ?_, ?_⟩ <;>
    · intro i
      simp [filter_invoke, hfr, hns, filter_axis, ewma_alpha, heq i]
      try ring

/-- C7: `last_noise[i] ≥ 0` holds after initialisation and is preserved
by every invocation (non-negative elapsed time, positive noise time
constant): the update blends the square `last_delta[i]^2` with the
previous non-negative estimate. -/
theorem C7_noise_nonneg (cfg : Settings) (se fe : ℝ) (f : EwmaFilter)
    (input : Fin 6 → ℝ) (hse : 0 ≤ se) (hrc : 0 < cfg.noise_RC)
    (hinv : f.first_run = true ∨ ∀ i, 0 ≤ f.last_noise i) :
    ∀ i, 0 ≤ (filter_invoke cfg se fe f input).1.last_noise i := by
  intro i
  have hdt : 0 ≤ (if is_new_sample
      (if f.first_run then init_state input else f).last_output input then se else 0) := by
    by_cases hb : is_new_sample (if f.first_run then init_state input else f).last_output input
    · rw [if_pos hb]
      exact hse
    · rw [if_neg hb]
  have hna := ewma_alpha_mem _ cfg.noise_RC hdt hrc
  have hf0 : 0 ≤ (if f.first_run then init_state input else f).last_noise i := by
    cases hc2 : f.first_run with
    | true => simp [init_state]
    | false =>
        simp only [Bool.false_eq_true, if_false]
        rcases hinv with hh | hh
        · rw [hc2] at hh
          exact absurd hh (by simp)
        · exact hh i
  simp only [filter_invoke]
  exact filter_axis_noise_nonneg cfg _ _ fe i _ _ _ _ hna.1 hna.2 hf0

lemma clamp_config_delta_RC (cfg : Settings) :
    (clamp_config cfg).delta_RC = cfg.delta_RC := rfl

lemma clamp_config_noise_RC (cfg : Settings) :
    (clamp_config cfg).noise_RC = cfg.noise_RC := rfl

lemma max_smoothing_clamp (cfg : Settings) :
    max_smoothing (clamp_config cfg) = max_smoothing cfg := by
  simp only [max_smoothing, clamp_config]
  rw [← max_assoc, max_self]

lemma dyn_RC_clamp (cfg : Settings) (sm : ℝ) (i : Fin 6) :
    dyn_RC (clamp_config cfg) sm i = dyn_RC cfg sm i := by
  unfold dyn_RC
  rw [max_smoothing_clamp]
  rfl

lemma filter_axis_clamp (cfg : Settings) (da na fe : ℝ) (i : Fin 6)
    (inp lo ld ln : ℝ) :
    filter_axis (clamp_config cfg) da na fe i inp lo ld ln =
      filter_axis cfg da na fe i inp lo ld ln := by
  simp only [filter_axis, dyn_RC_clamp]
  rfl

/-- C8: a degenerate configuration with
`max_smoothing_raw < min_smoothing` is handled by the defensive clamp
`max_smoothing = max(min, max_raw)` — the effective maximum collapses
to the minimum, `min ≤ max` is enforced, and the invocation proceeds
exactly as with the explicitly clamped configuration (a total function:
no error is signalled). -/
theorem C8_degenerate_clamped (cfg : Settings)
    (h : cfg.max_smoothing_raw < cfg.min_smoothing) :
    max_smoothing cfg = cfg.min_smoothing ∧
    cfg.min_smoothing ≤ max_smoothing cfg ∧
    ∀ se fe f input, filter_invoke cfg se fe f input =
      filter_invoke (clamp_config cfg) se fe f input := by
  refine ⟨max_eq_left h.le, le_max_left _ _, ?_⟩
  intro se fe f input
  simp only [filter_invoke, filter_axis_clamp, clamp_config_delta_RC, clamp_config_noise_RC]

/-- A concrete well-formed configuration: unit time constants, unit
curve exponent, `min_smoothing = 0`, `max_smoothing_raw = 1`. -/
noncomputable def cfg1 : Settings := ⟨1, 1, 1, 0, 1⟩

/-- A concrete degenerate configuration with
`max_smoothing_raw = 0 < 1 = min_smoothing`. -/
noncomputable def cfg2 : Settings := ⟨1, 1, 1, 1, 0⟩

/-- A fresh filter instance (first run still pending). -/
noncomputable def tf : EwmaFilter := ⟨true, fun _ => 0, fun _ => 0, fun _ => 0⟩

/-- An initialised filter instance at the all-zero state. -/
noncomputable def zf : EwmaFilter := ⟨false, fun _ => 0, fun _ => 0, fun _ => 0⟩

/-- Witness for C1 at the concrete configuration `cfg1`, axis 0,
`d = 0`, `ln = 0`. -/
theorem C1_bounded_time_constant_w :
    c 0 * cfg1.min_smoothing ≤
      dyn_RC cfg1 (smoothing (norm_noise (0 * 0) 0) cfg1.smoothing_scale_curve) 0 ∧
    dyn_RC cfg1 (smoothing (norm_noise (0 * 0) 0) cfg1.smoothing_scale_curve) 0 ≤
      c 0 * max_smoothing cfg1 :=
  C1_bounded_time_constant cfg1 zero_lt_one 0 0 0

/-- Witness for C2: first invocation of a fresh instance on the zero
vector. -/
theorem C2_first_call_identity_w :
    (∀ i, (filter_invoke cfg1 0 0 tf fun _ => 0).2 i = 0) ∧
    (∀ i, (filter_invoke cfg1 0 0 tf fun _ => 0).1.last_output i = 0) ∧
    (∀ i, (filter_invoke cfg1 0 0 tf fun _ => 0).1.last_delta i = 0) ∧
    (∀ i, (filter_invoke cfg1 0 0 tf fun _ => 0).1.last_noise i = 0) :=
  C2_first_call_identity cfg1 0 0 tf (fun _ => 0) rfl

/-- Witness for C3: unchanged zero input on the initialised zero state. -/
theorem C3_stats_freeze_w :
    (if is_new_sample zf.last_output fun _ => 0 then (0:ℝ) else 0) = 0 ∧
    ewma_alpha 0 cfg1.delta_RC = 0 ∧ ewma_alpha 0 cfg1.noise_RC = 0 ∧
    (∀ i, (filter_invoke cfg1 0 0 zf fun _ => 0).1.last_delta i = zf.last_delta i) ∧
    (∀ i, (filter_invoke cfg1 0 0 zf fun _ => 0).1.last_noise i = zf.last_noise i) :=
  C3_stats_freeze cfg1 0 0 zf (fun _ => 0) rfl
    (not_new_sample_of_eq _ _ fun _ => rfl) zero_lt_one zero_lt_one

/-- Witness for C5: the initialised zero state is a fixed point under
the zero input. -/
theorem C5_fixed_point_w :
    (∀ i, (filter_invoke cfg1 0 0 zf fun _ => 0).2 i = 0) ∧
    (∀ i, (filter_invoke cfg1 0 0 zf fun _ => 0).1.last_output i = zf.last_output i) ∧
    (∀ i, (filter_invoke cfg1 0 0 zf fun _ => 0).1.last_delta i = zf.last_delta i) ∧
    (∀ i, (filter_invoke cfg1 0 0 zf fun _ => 0).1.last_noise i = zf.last_noise i) :=
  C5_fixed_point cfg1 0 0 zf (fun _ => 0) rfl (fun _ => rfl) zero_lt_one zero_lt_one

/-- Witness for C6 at `norm_noise = 0`, `curve = 1`. -/
theorem C6_smoothing_fraction_w :
    ((0:ℝ) ≤ smoothing 0 1 ∧ smoothing 0 1 ≤ 1) ∧
    smoothing 0 1 = 1 ∧ smoothing 1 1 = 0 :=
  C6_smoothing_fraction 0 1 (le_refl 0) zero_le_one zero_lt_one

/-- Witness for C7: the first invocation on a fresh instance keeps the
noise estimates non-negative. -/
theorem C7_noise_nonneg_w :
    0 ≤ (filter_invoke cfg1 0 0 tf fun _ => 0).1.last_noise 0 :=
  C7_noise_nonneg cfg1 0 0 tf (fun _ => 0) (le_refl 0) zero_lt_one (Or.inl rfl) 0

/-- Witness for C8 at the degenerate configuration `cfg2`. -/
theorem C8_degenerate_clamped_w :
    max_smoothing cfg2 = cfg2.min_smoothing ∧
    cfg2.min_smoothing ≤ max_smoothing cfg2 ∧
    ∀ se fe f input, filter_invoke cfg2 se fe f input =
      filter_invoke (clamp_config cfg2) se fe f input :=
  C8_degenerate_clamped cfg2 zero_lt_one

/-- Witness for C9 at `d = 0`, `ln = 0`. -/
theorem C9_norm_noise_guard_w :
    ((0:ℝ) < 1e-10 → norm_noise (0 * 0) 0 = 0) ∧
    (¬ (0:ℝ) < 1e-10 → 0 < 9 * (0:ℝ) ∧
      norm_noise (0 * 0) 0 = min ((0:ℝ) * 0 / (9 * 0)) 1) ∧
    0 ≤ norm_noise (0 * 0) 0 ∧ norm_noise (0 * 0) 0 ≤ 1 :=
  C9_norm_noise_guard 0 0 (le_refl 0)

end Ewma2
